import Mathlib

/-!
Shallow embedding of `.github/scripts/generate-readme.js` (the single source
file of this repository): a Node.js script that scans a project directory
(package manifest, `src/` tree, Angular markers) and emits a Markdown README.

Modelling conventions:
* The filesystem visible from the script's working directory is a finite tree
  `FSNode` (directories carry an ordered entry list, mirroring the order
  `fs.readdirSync` returns; real directories have distinct, nonempty names,
  captured by `wfEntries`).
* Relative paths are strings with forward-slash separators, as produced on a
  POSIX host (the script normalizes backslashes away, so the Windows and POSIX
  behaviours agree on the produced paths).
* `fs.readFileSync`/`fs.readdirSync` on a path of the wrong kind throw; a
  thrown error that the script does not catch is modelled by `Option.none` on
  the affected operation and propagated.
* `JSON.parse` of the manifest is not re-implemented; the outcome of
  `readJSON("package.json")` (line 21-27, `null` on any failure) is taken as
  an `Option Pkg` input, with `null` modelled as `none`.
* JavaScript string comparison (`localeCompare` / default `sort`) is modelled
  by code-point lexicographic order `strLe`; all names the claims compare are
  lowercase ASCII, where the two orders coincide.
-/

/-- Code-point comparison of character lists: lexicographic `≤`. -/
def chLe : List Char → List Char → Bool
  | [], _ => true
  | _ :: _, [] => false
  | a :: as, b :: bs =>
    if a.toNat < b.toNat then true
    else if b.toNat < a.toNat then false
    else chLe as bs

/-- Lexicographic (code-point) string order, the model of JS string sorting. -/
def strLe (a b : String) : Bool := chLe a.toList b.toList

/-- List begins with the given list as an initial run. -/
def beginsWith : List Char → List Char → Bool
  | [], _ => true
  | _ :: _, [] => false
  | p :: ps, c :: cs => p = c && beginsWith ps cs

/-- Model of `String.prototype.endsWith` / `f.endsWith(".component.ts")`. -/
def strEndsWith (s suf : String) : Bool := beginsWith suf.toList.reverse s.toList.reverse

/-- Model of `String.prototype.startsWith` / `n.startsWith("@angular/")`. -/
def strBeginsWith (s pre : String) : Bool := beginsWith pre.toList s.toList

/-- Split a relative path at forward slashes, accumulator for `splitPath`. -/
def splitPathAux : List Char → List Char → List String
  | acc, [] => [acc.reverse.asString]
  | acc, c :: cs =>
    if c = '/' then acc.reverse.asString :: splitPathAux [] cs
    else splitPathAux (c :: acc) cs

/-- Split a relative path into its segments ("a/b" becomes ["a", "b"]). -/
def splitPath (s : String) : List String := splitPathAux [] s.toList

mutual
/-- One level of a filesystem tree: a regular file with text content, or a
directory with an ordered list of named entries (`FSEntries`, mirroring the
order `fs.readdirSync` returns). -/
inductive FSNode where
  | file (content : String)
  | dir (entries : FSEntries)

/-- Ordered entry list of a directory. -/
inductive FSEntries where
  | nil
  | cons (nm : String) (child : FSNode) (rest : FSEntries)
end

/-- Build an entry list from a `List` literal, for readable tree notation. -/
def FSEntries.ofList : List (String × FSNode) → FSEntries
  | [] => .nil
  | (nm, c) :: rest => .cons nm c (FSEntries.ofList rest)

/-- Directory node from a `List` literal of entries. -/
def dirOf (l : List (String × FSNode)) : FSNode := .dir (.ofList l)

/-- First entry with the given name, the resolution step of one path segment. -/
def findEntry : FSEntries → String → Option FSNode
  | .nil, _ => none
  | .cons nm c rest, seg => if nm = seg then some c else findEntry rest seg

/-- Resolve a segment path in the tree (the node an OS path lookup reaches). -/
def FSNode.find? (n : FSNode) (path : List String) : Option FSNode :=
  match n, path with
  | n, [] => some n
  | .file _, _ :: _ => none
  | .dir es, seg :: rest =>
    match findEntry es seg with
    | none => none
    | some c => c.find? rest
termination_by structural path

/-- Model of `fs.existsSync(p)` from the working directory `fs`. -/
def existsAt (fs : FSNode) (p : String) : Bool := (fs.find? (splitPath p)).isSome

/-- Model of `fs.readFileSync(p, "utf8")`: `none` when the path is missing or
is a directory (both throw in Node). -/
def readFileAt (fs : FSNode) (p : String) : Option String :=
  match fs.find? (splitPath p) with
  | some (.file c) => some c
  | _ => none

/-- Model of `path.join(base, name)` for the relative paths the script builds
(base empty on the first level), already slash-normalized (line 44). -/
def joinRel (base nm : String) : String :=
  if base = "" then nm else base ++ "/" ++ nm

/-- Recursive body of `listFiles` (lines 32-49) over a directory's entries:
files are emitted as `base`-relative paths, directories are recursed into
(the `fs.statSync(full)` kind test is the constructor of the entry). -/
def listFilesEntries : FSEntries → String → List String
  | .nil, _ => []
  | .cons nm (.file _) rest, base => joinRel base nm :: listFilesEntries rest base
  | .cons nm (.dir es2) rest, base =>
    listFilesEntries es2 (joinRel base nm) ++ listFilesEntries rest base

/-- Model of `listFiles(dir)` called on a path: a missing root yields `[]`
(line 34); a root that is a regular file makes `fs.readdirSync` throw
`ENOTDIR` (uncaught), modelled as `none`. -/
def listFilesOpt (fs : FSNode) (dir : String) : Option (List String) :=
  match fs.find? (splitPath dir) with
  | none => some []
  | some (.file _) => none
  | some (.dir es) => some (listFilesEntries es "")

/-- Name does not occur among the entry keys. -/
def keyNotIn (nm : String) : FSEntries → Bool
  | .nil => true
  | .cons nm2 _ rest => !(nm2 == nm) && keyNotIn nm rest

/-- Well-formedness of a directory listing as a real filesystem guarantees it:
entry names are nonempty and pairwise distinct, recursively. -/
def wfEntries : FSEntries → Bool
  | .nil => true
  | .cons nm (.file _) rest => !(nm == "") && keyNotIn nm rest && wfEntries rest
  | .cons nm (.dir es2) rest =>
    !(nm == "") && keyNotIn nm rest && wfEntries es2 && wfEntries rest

/-- Well-formedness of a tree node. -/
def wfNode : FSNode → Bool
  | .file _ => true
  | .dir es => wfEntries es

/-- Insert into a list sorted by `le`, keeping earlier elements first on ties
(the stability JS `Array.prototype.sort` guarantees). -/
def insertSorted (le : α → α → Bool) (x : α) : List α → List α
  | [] => [x]
  | y :: ys => if le x y then x :: y :: ys else y :: insertSorted le x ys

/-- Model of `Array.prototype.sort` with comparator `le` (insertion sort). -/
def sortBy (le : α → α → Bool) : List α → List α
  | [] => []
  | x :: xs => insertSorted le x (sortBy le xs)

/-- Order on manifest entry pairs by key, the `a[0].localeCompare(b[0])`
comparators of lines 111-119. -/
def entryLe (a b : String × String) : Bool := strLe a.1 b.1

/-- Characters the regex class `['"`]` accepts (quote characters). -/
def isQuoteCh (c : Char) : Bool := c = '\x27' || c = '"' || c = '\x60'

/-- Characters the regex class `\s` accepts on the texts at hand. -/
def isJsSpaceCh (c : Char) : Bool :=
  c = ' ' || c = '\t' || c = '\n' || c = '\r' || c = '\x0b' || c = '\x0c'

/-- Characters the regex class `\w` accepts: ASCII letters, digits, `_`. -/
def isWordCh (c : Char) : Bool :=
  (97 ≤ c.toNat && c.toNat ≤ 122) || (65 ≤ c.toNat && c.toNat ≤ 90) ||
  (48 ≤ c.toNat && c.toNat ≤ 57) || c = '_'

/-- Consume an exact literal run, returning the remainder. -/
def stripLit : List Char → List Char → Option (List Char)
  | [], cs => some cs
  | _ :: _, [] => none
  | l :: ls, c :: cs => if c = l then stripLit ls cs else none

/-- Match of `selector\s*:\s*['"`]([^'"`]+)['"`]` anchored at the start of the
input, returning the first capture group. The quoted body is the maximal
nonempty run of non-quote characters, which must be followed by some character
(necessarily a quote), exactly as the greedy regex behaves. -/
def matchSelectorAt (cs : List Char) : Option (List Char) :=
  match stripLit "selector".toList cs with
  | none => none
  | some cs1 =>
    match (cs1.dropWhile isJsSpaceCh) with
    | ':' :: cs2 =>
      match (cs2.dropWhile isJsSpaceCh) with
      | q :: cs3 =>
        if isQuoteCh q then
          match cs3.takeWhile (fun c => !isQuoteCh c), cs3.dropWhile (fun c => !isQuoteCh c) with
          | [], _ => none
          | _, [] => none
          | body, _ :: _ => some body
        else none
      | [] => none
    | _ => none

/-- Match of `export\s+class\s+(\w+)` anchored at the start of the input,
returning the first capture group. -/
def matchExportClassAt (cs : List Char) : Option (List Char) :=
  match stripLit "export".toList cs with
  | none => none
  | some cs1 =>
    match cs1.takeWhile isJsSpaceCh with
    | [] => none
    | _ :: _ =>
      match stripLit "class".toList (cs1.dropWhile isJsSpaceCh) with
      | none => none
      | some cs2 =>
        match cs2.takeWhile isJsSpaceCh with
        | [] => none
        | _ :: _ =>
          match (cs2.dropWhile isJsSpaceCh).takeWhile isWordCh with
          | [] => none
          | w => some w

/-- Leftmost match: try the anchored matcher at every suffix, earliest first,
as `String.prototype.match` does for these patterns. -/
def scanFirst (f : List Char → Option (List Char)) : List Char → Option (List Char)
  | [] => none
  | c :: cs =>
    match f (c :: cs) with
    | some r => some r
    | none => scanFirst f cs

/-- First capture of `/selector\s*:\s*['"`]([^'"`]+)['"`]/` in the text
(line 86). -/
def matchSelector (txt : String) : Option String :=
  (scanFirst matchSelectorAt txt.toList).map List.asString

/-- First capture of `/export\s+class\s+(\w+)/` in the text (line 87). -/
def matchExportClass (txt : String) : Option String :=
  (scanFirst matchExportClassAt txt.toList).map List.asString

/-- Extracted record for one component file (lines 88-92). -/
structure Component where
  file : String
  selector : String
  className : String

/-- Order on components by file path, the comparator of line 98. -/
def compLe (a b : Component) : Bool := strLe a.file b.file

/-- Body of the per-file `try` block (lines 84-95): read the file at path `f`
resolved against the working directory — note the source passes the
`src`-relative name `f` straight to `fs.readFileSync`, not `src/` ++ `f` —
and on success extract the two regex captures, empty string when absent.
`none` models the swallowed read failure (file omitted). -/
def componentOfFile (fs : FSNode) (f : String) : Option Component :=
  match readFileAt fs f with
  | none => none
  | some txt =>
    some { file := f
           selector := (matchSelector txt).getD ""
           className := (matchExportClass txt).getD "" }

/-- Model of `findComponents()` (lines 77-99): under the existence guard,
list `src` recursively, keep `*.component.ts` names, extract per file with
failures omitted, and sort by file path. `none` models the uncaught
`ENOTDIR` throw when `src` is a regular file. -/
def findComponentsOpt (fs : FSNode) : Option (List Component) :=
  match fs.find? ["src"] with
  | none => some []
  | some (.file _) => none
  | some (.dir es) =>
    let files := (listFilesEntries es "").filter (fun f => strEndsWith f ".component.ts")
    some (sortBy compLe (files.filterMap (componentOfFile fs)))

/-- Shape of the `engines` manifest field as the script reads it. -/
structure Engines where
  node : Option String := none

/-- Parsed manifest record: the fields the script reads from `package.json`.
`none` models an absent field; the `readJSON` outcome `null` (missing or
unparseable manifest, lines 21-27) is modelled as `none` at the `Option Pkg`
level and replaced by the empty record `{}` exactly as `readJSON(...) || {}`
does on line 105. -/
structure Pkg where
  name : Option String := none
  description : Option String := none
  engines : Option Engines := none
  scripts : Option (List (String × String)) := none
  dependencies : Option (List (String × String)) := none
  devDependencies : Option (List (String × String)) := none

/-- JavaScript `x || dflt` on an optional string: the default is taken both
when the field is absent and when it is the (falsy) empty string. -/
def jsOrStr (o : Option String) (dflt : String) : String :=
  match o with
  | some s => if s = "" then dflt else s
  | none => dflt

/-- Model of line 106: `pkg.name || path.basename(process.cwd())`. -/
def titleOf (pkgOut : Option Pkg) (cwdBase : String) : String :=
  jsOrStr (pkgOut.getD {}).name cwdBase

/-- Model of line 107: `pkg.description || ""`. -/
def descOf (pkgOut : Option Pkg) : String :=
  jsOrStr (pkgOut.getD {}).description ""

/-- Model of line 108: `pkg.engines?.node || ""`. -/
def nodeVerOf (pkgOut : Option Pkg) : String :=
  jsOrStr ((pkgOut.getD {}).engines.bind Engines.node) ""

/-- Model of line 121-124: `fs.existsSync("angular.json") || deps.some(([n]) =>
n.startsWith("@angular/")) || devDeps.some(...)`, a pure boolean. -/
def isAngularOf (fs : FSNode) (deps devDeps : List (String × String)) : Bool :=
  existsAt fs "angular.json"
    || deps.any (fun e => strBeginsWith e.1 "@angular/")
    || devDeps.any (fun e => strBeginsWith e.1 "@angular/")

/-- Directory test of `fs.statSync(n).isDirectory()`. -/
def isDirNode : FSNode → Bool
  | .dir _ => true
  | .file _ => false

/-- Fixed ignore set of `listTopLevelFolders` (lines 55-64). -/
def ignoredNames : List String :=
  ["node_modules", ".git", ".github", "README.md", "package.json",
   "package-lock.json", "yarn.lock", "pnpm-lock.yaml"]

/-- Filter-and-map pass of lines 68-71: names of entries that are directories
and are not ignored, in listing order. -/
def topFolderNames : FSEntries → List String
  | .nil => []
  | .cons nm c rest =>
    if isDirNode c && !(ignoredNames.contains nm) then nm :: topFolderNames rest
    else topFolderNames rest

/-- Model of `listTopLevelFolders()` (lines 54-72): immediate subdirectories
of the working directory, ignore set removed, sorted. The working directory
itself always resolves as a directory; a file root yields `[]` defensively. -/
def listTopLevelFolders (fs : FSNode) : List String :=
  match fs with
  | .file _ => []
  | .dir es => sortBy strLe (topFolderNames es)

/-- Values of the top-level constants of the data-extraction phase
(lines 105-127) that feed the report builder. -/
structure Extracted where
  title : String
  desc : String
  nodeVer : String
  scripts : List (String × String)
  deps : List (String × String)
  devDeps : List (String × String)
  isAngular : Bool
  components : List Component
  topFolders : List String
  files : List String

/-- Data-extraction phase, lines 105-127: manifest fields with defaults,
sorted `src` file list, sorted script/dependency entries, Angular detection,
components and top-level folders. `none` models an uncaught throw (only
possible when `src` is a regular file, line 110 and line 82). -/
def extract (fs : FSNode) (pkgOut : Option Pkg) (cwdBase : String) : Option Extracted :=
  let pkg := pkgOut.getD {}
  match listFilesOpt fs "src" with
  | none => none
  | some files0 =>
    let deps := sortBy entryLe (pkg.dependencies.getD [])
    let devDeps := sortBy entryLe (pkg.devDependencies.getD [])
    match findComponentsOpt fs with
    | none => none
    | some comps =>
      some { title := titleOf pkgOut cwdBase
             desc := descOf pkgOut
             nodeVer := nodeVerOf pkgOut
             scripts := sortBy entryLe (pkg.scripts.getD [])
             deps := deps
             devDeps := devDeps
             isAngular := isAngularOf fs deps devDeps
             components := comps
             topFolders := listTopLevelFolders fs
             files := sortBy strLe files0 }

/-- Escape of backticks in script commands, line 186. -/
def escTicks (s : String) : String :=
  (s.toList.flatMap (fun c => if c = '\x60' then ['\\', '\x60'] else [c])).asString

/-- Timestamp line of lines 133 and 136; `now` stands for
`new Date().toISOString()`. -/
def tsLine (now : String) : String := "Generated: " ++ now ++ "\n\n"

/-- Title and optional description, lines 134-135. -/
def headerPart (title desc : String) : String :=
  "# " ++ title ++ "\n\n" ++ (if desc = "" then "" else desc ++ "\n\n")

/-- Test of `/^(start|serve)$/` on a script name, line 151. -/
def isStartName (n : String) : Bool := n == "start" || n == "serve"

/-- Test of `/^(build|prod|prepare)$/` on a script name, lines 159-162. -/
def isBuildName (n : String) : Bool := n == "build" || n == "prod" || n == "prepare"

/-- Optional `npm run start`/`serve` snippet, lines 151-155. -/
def startSnippet (scripts : List (String × String)) : String :=
  match scripts.find? (fun e => isStartName e.1) with
  | some e => "Start the app using npm script:\n\n```powershell\nnpm run " ++ e.1 ++ "\n```\n\n"
  | none => ""

/-- Production-build command body, lines 159-168. The source guards with
`scripts.some(...)` and then re-runs `scripts.find(...)`; since `some` holds
exactly when `find` succeeds, the guarded pair is one `find` match here. -/
def buildCmd (scripts : List (String × String)) (ang : Bool) : String :=
  match scripts.find? (fun e => isBuildName e.1) with
  | some e => "npm run " ++ e.1 ++ "\n"
  | none => if ang then "npx ng build --prod\n" else "npm run build\n"

/-- Test command body, lines 173-177. -/
def testCmd (scripts : List (String × String)) : String :=
  if scripts.any (fun e => e.1 == "test") then "npm test\n" else "npm run test\n"

/-- The "Getting started" section, lines 140-178. -/
def gettingStarted (scripts : List (String × String)) (ang : Bool) : String :=
  "## Getting started\n\n"
  ++ "These commands use PowerShell; adjust for bash if needed.\n\n"
  ++ "Install dependencies:\n\n```powershell\nnpm ci\n```\n\n"
  ++ (if ang then "Run the dev server (Angular):\n\n```powershell\nnpx ng serve --open\n```\n\n" else "")
  ++ startSnippet scripts
  ++ "Build for production:\n\n```powershell\n" ++ buildCmd scripts ang ++ "```\n\n"
  ++ "Run tests:\n\n```powershell\n" ++ testCmd scripts ++ "```\n\n"

/-- The npm-scripts section, lines 181-189. -/
def scriptsSection (scripts : List (String × String)) : String :=
  "## Available npm scripts\n\n"
  ++ (if scripts.isEmpty then "_No scripts defined in `package.json`._\n\n"
      else String.join (scripts.map (fun e => "- **" ++ e.1 ++ "**: `" ++ escTicks e.2 ++ "`\n")) ++ "\n")

/-- The dependencies section, lines 192-197. -/
def depsSection (deps : List (String × String)) : String :=
  "## Dependencies\n\n"
  ++ (if deps.isEmpty then "_No dependencies listed._\n\n"
      else String.join (deps.map (fun e => "- `" ++ e.1 ++ "`: " ++ e.2 ++ "\n")) ++ "\n")

/-- The dev-dependencies section, lines 200-205. -/
def devDepsSection (devDeps : List (String × String)) : String :=
  "## Dev dependencies\n\n"
  ++ (if devDeps.isEmpty then "_No devDependencies listed._\n\n"
      else String.join (devDeps.map (fun e => "- `" ++ e.1 ++ "`: " ++ e.2 ++ "\n")) ++ "\n")

/-- The top-level-folders section, lines 208-214. -/
def foldersSection (topFolders : List String) : String :=
  "## Project structure (top-level folders)\n\n"
  ++ (if topFolders.isEmpty then "_No top-level folders found or repository is empty._\n\n"
      else String.join (topFolders.map (fun f => "- `" ++ f ++ "`\n")) ++ "\n")

/-- JavaScript `s || "-"` of line 224. -/
def orDash (s : String) : String := if s = "" then "-" else s

/-- The Angular-components section, lines 217-227. -/
def componentsSection (ang : Bool) (comps : List Component) : String :=
  "## Angular components (detected)\n\n"
  ++ (if !ang then "_Angular project not detected._\n\n"
      else if comps.isEmpty then "_No `*.component.ts` files detected under `src/`._\n\n"
      else String.join (comps.map (fun c =>
        "- `" ++ c.file ++ "` — selector: `" ++ orDash c.selector
          ++ "`, class: `" ++ orDash c.className ++ "`\n")) ++ "\n")

/-- The src-files section and trailing separator, lines 230-235. -/
def filesSection (files : List String) : String :=
  "## Files in src/\n\n"
  ++ (if files.isEmpty then "_No files found in `src/`._\n"
      else String.join (files.map (fun f => "- `" ++ f ++ "`\n")))
  ++ "\n---\n\n"

/-- Everything the report appends after the timestamp line (lines 137-235);
none of it depends on the wall-clock time. -/
def afterTsPart (e : Extracted) : String :=
  (if e.nodeVer = "" then "" else "Node requirement: " ++ e.nodeVer ++ "\n\n")
  ++ gettingStarted e.scripts e.isAngular
  ++ scriptsSection e.scripts
  ++ depsSection e.deps
  ++ devDepsSection e.devDeps
  ++ foldersSection e.topFolders
  ++ componentsSection e.isAngular e.components
  ++ filesSection e.files

/-- The full report text (lines 133-235) for a given timestamp string. -/
def buildContent (e : Extracted) (now : String) : String :=
  headerPart e.title e.desc ++ tsLine now ++ afterTsPart e

/-- Model of line 243: prior content is the output file's text when it exists
and `""` when it does not; a directory at `README.md` makes `readFileSync`
throw (uncaught), modelled as `none`. -/
def readPrev (fs : FSNode) : Option String :=
  match fs.find? ["README.md"] with
  | none => some ""
  | some (.file c) => some c
  | some (.dir _) => none

/-- Observable outcome of one run: final content, whether a write happened,
the console line, and the process exit code. -/
structure RunResult where
  content : String
  wrote : Bool
  message : String
  exitCode : Nat

/-- Writer decision, lines 245-252: write and report "updated" exactly when
the prior content differs from the new content, otherwise report "unchanged";
both paths call `process.exit(0)`. -/
def writerStep (prev content : String) : RunResult :=
  if prev ≠ content then
    { content := content, wrote := true, message := "✅ README.md updated", exitCode := 0 }
  else
    { content := content, wrote := false, message := "ℹ️  README.md unchanged", exitCode := 0 }

/-- One whole run of the script: data extraction, report build, writer.
`none` models a run that dies on an uncaught throw. -/
def run (fs : FSNode) (pkgOut : Option Pkg) (cwdBase now : String) : Option RunResult :=
  match extract fs pkgOut cwdBase with
  | none => none
  | some e =>
    match readPrev fs with
    | none => none
    | some prev => some (writerStep prev (buildContent e now))

/-- Forward-slash join of path segments: the shape of the relative paths
`listFiles` produces ("a/b/c" for segments ["a", "b", "c"]). -/
def joinSegs : List String → String
  | [] => ""
  | [s] => s
  | s :: rest => s ++ "/" ++ joinSegs rest

/-- Text of a component source file containing `selector: 'app-foo'` and
`export class FooComponent` (braces and quotes written as escapes). -/
def compText : String :=
  "@Component(\x7b selector: \x27app-foo\x27 \x7d)\nexport class FooComponent \x7b\x7d\n"

/-- Working directory tree holding `src/app.component.ts` with `compText` as
content, and nothing else; in particular no `app.component.ts` entry exists
directly at the working-directory root. -/
def bugFS : FSNode := dirOf [("src", dirOf [("app.component.ts", FSNode.file compText)])]

/-!
Order and sorting facts used to reason about the script's `sort` calls.
-/

theorem chLe_refl (l : List Char) : chLe l l = true := by
  induction l with
  | nil => rfl
  | cons a as ih => simp [chLe, ih]

theorem chLe_total (l₁ l₂ : List Char) : chLe l₁ l₂ = true ∨ chLe l₂ l₁ = true := by
  induction l₁ generalizing l₂ with
  | nil => left; rfl
  | cons a as ih =>
    cases l₂ with
    | nil => right; rfl
    | cons b bs =>
      rcases Nat.lt_trichotomy a.toNat b.toNat with h | h | h
      · left; simp [chLe, h]
      · rcases ih bs with h2 | h2
        · left; simp [chLe, h, h2]
        · right; simp [chLe, h.symm, h2]
      · right; simp [chLe, h]

theorem chLe_trans (l₁ l₂ l₃ : List Char) (h1 : chLe l₁ l₂ = true)
    (h2 : chLe l₂ l₃ = true) : chLe l₁ l₃ = true := by
  induction l₁ generalizing l₂ l₃ with
  | nil => rfl
  | cons a as ih =>
    cases l₂ with
    | nil => simp [chLe] at h1
    | cons b bs =>
      cases l₃ with
      | nil => simp [chLe] at h2
      | cons c cs =>
        simp only [chLe] at h1 h2 ⊢
        split_ifs at h1 h2 ⊢ <;>
          first
          | rfl
          | omega
          | exact ih bs cs h1 h2

theorem strLe_refl (a : String) : strLe a a = true := chLe_refl _

theorem strLe_total (a b : String) : strLe a b = true ∨ strLe b a = true := chLe_total _ _

theorem strLe_trans (a b c : String) (h1 : strLe a b = true) (h2 : strLe b c = true) :
    strLe a c = true := chLe_trans _ _ _ h1 h2

theorem mem_insertSorted (le : α → α → Bool) (x : α) (l : List α) (y : α) :
    y ∈ insertSorted le x l ↔ y = x ∨ y ∈ l := by
  induction l with
  | nil => simp [insertSorted]
  | cons z zs ih =>
    by_cases h : le x z = true
    · rw [insertSorted, if_pos h]
      simp [List.mem_cons]
    · rw [insertSorted, if_neg h]
      simp only [List.mem_cons, ih]
      tauto

theorem mem_sortBy (le : α → α → Bool) (l : List α) (y : α) :
    y ∈ sortBy le l ↔ y ∈ l := by
  induction l with
  | nil => simp [sortBy]
  | cons x xs ih => simp [sortBy, mem_insertSorted, ih]

theorem pairwise_insertSorted (le : α → α → Bool)
    (htrans : ∀ a b c, le a b = true → le b c = true → le a c = true)
    (htotal : ∀ a b, le a b = true ∨ le b a = true)
    (x : α) (l : List α) (h : l.Pairwise (fun a b => le a b = true)) :
    (insertSorted le x l).Pairwise (fun a b => le a b = true) := by
  induction l with
  | nil => simp [insertSorted]
  | cons y ys ih =>
    rcases List.pairwise_cons.mp h with ⟨hy, hys⟩
    by_cases hxy : le x y = true
    · rw [insertSorted, if_pos hxy]
      refine List.pairwise_cons.mpr ⟨?_, h⟩
      intro z hz
      rcases List.mem_cons.mp hz with rfl | hz2
      · exact hxy
      · exact htrans x y z hxy (hy z hz2)
    · rw [insertSorted, if_neg hxy]
      refine List.pairwise_cons.mpr ⟨?_, ih hys⟩
      intro z hz
      rcases (mem_insertSorted le x ys z).mp hz with h1 | hz2
      · rcases htotal x y with h2 | h2
        · exact absurd h2 hxy
        · rw [h1]; exact h2
      · exact hy z hz2

theorem pairwise_sortBy (le : α → α → Bool)
    (htrans : ∀ a b c, le a b = true → le b c = true → le a c = true)
    (htotal : ∀ a b, le a b = true ∨ le b a = true)
    (l : List α) : (sortBy le l).Pairwise (fun a b => le a b = true) := by
  induction l with
  | nil => simp [sortBy]
  | cons x xs ih => exact pairwise_insertSorted le htrans htotal x _ ih

theorem find?_min_of_pairwise (le : α → α → Bool) (p : α → Bool) (l : List α)
    (hs : l.Pairwise (fun a b => le a b = true)) (x : α) (hx : l.find? p = some x) :
    ∀ y ∈ l, p y = true → le x y = true ∨ x = y := by
  induction l with
  | nil => simp at hx
  | cons a as ih =>
    rcases List.pairwise_cons.mp hs with ⟨ha, has⟩
    by_cases hpa : p a = true
    · rw [List.find?_cons_of_pos _ hpa] at hx
      obtain rfl : a = x := by injection hx
      intro y hy _
      rcases List.mem_cons.mp hy with rfl | hy2
      · right; rfl
      · left; exact ha y hy2
    · rw [List.find?_cons_of_neg _ (by simpa using hpa)] at hx
      intro y hy hpy
      rcases List.mem_cons.mp hy with rfl | hy2
      · exact absurd hpy hpa
      · exact ih has hx y hy2 hpy

theorem find?_isSome_of_mem (p : α → Bool) (l : List α) (x : α)
    (hx : x ∈ l) (hpx : p x = true) : ∃ y, l.find? p = some y := by
  induction l with
  | nil => simp at hx
  | cons a as ih =>
    by_cases hpa : p a = true
    · exact ⟨a, List.find?_cons_of_pos _ hpa⟩
    · rcases List.mem_cons.mp hx with rfl | hx2
      · exact absurd hpx hpa
      · obtain ⟨y, hy⟩ := ih hx2
        exact ⟨y, by rw [List.find?_cons_of_neg _ (by simpa using hpa)]; exact hy⟩

/-!
Facts about path resolution and `listFiles` on well-formed trees.
-/

theorem str_append_ne_left (a b : String) (ha : a ≠ "") : a ++ b ≠ "" := by
  intro h
  apply ha
  have h2 := congrArg String.data h
  rw [String.data_append] at h2
  have h3 := List.append_eq_nil.mp h2
  cases a with
  | mk d => exact congrArg String.mk h3.1

theorem keyNotIn_findEntry : ∀ (es : FSEntries) (nm : String),
    keyNotIn nm es = true → findEntry es nm = none
  | .nil, _, _ => rfl
  | .cons nm2 c rest, nm, h => by
    rw [keyNotIn, Bool.and_eq_true] at h
    rw [findEntry, if_neg ?_]
    · exact keyNotIn_findEntry rest nm h.2
    · intro he
      rw [he] at h
      simp at h

theorem wfEntries_cons (nm : String) (c : FSNode) (rest : FSEntries) :
    wfEntries (.cons nm c rest)
      = (!(nm == "") && keyNotIn nm rest && wfNode c && wfEntries rest) := by
  cases c with
  | file ct => simp [wfEntries, wfNode]
  | dir es2 => rfl

theorem findEntry_wf : ∀ (es : FSEntries) (seg : String) (c : FSNode),
    wfEntries es = true → findEntry es seg = some c → seg ≠ "" ∧ wfNode c = true
  | .nil, seg, c, _, h => by simp [findEntry] at h
  | .cons nm child rest, seg, c, hwf, h => by
    simp only [wfEntries_cons, Bool.and_eq_true, Bool.not_eq_true',
      beq_eq_false_iff_ne] at hwf
    obtain ⟨⟨⟨hnm, hkey⟩, hchild⟩, hrest⟩ := hwf
    rw [findEntry] at h
    by_cases hn : nm = seg
    · rw [if_pos hn] at h
      obtain rfl : child = c := Option.some.inj h
      exact ⟨hn ▸ hnm, hchild⟩
    · rw [if_neg hn] at h
      exact findEntry_wf rest seg c hrest h

theorem find?_wf_names : ∀ (segs : List String) (n : FSNode) (c : String),
    wfNode n = true → n.find? segs = some (.file c) → ∀ s ∈ segs, s ≠ ""
  | [], _, _, _, _ => by simp
  | seg :: rest, n, c, hwf, hf => by
    cases n with
    | file ct => simp [FSNode.find?] at hf
    | dir es =>
      simp only [FSNode.find?] at hf
      split at hf
      · exact absurd hf (by simp)
      · rename_i ch hfe
        simp only [wfNode] at hwf
        obtain ⟨hseg, hch⟩ := findEntry_wf es seg ch hwf hfe
        intro s hs
        rcases List.mem_cons.mp hs with rfl | hs2
        · exact hseg
        · exact find?_wf_names rest ch c hch hf s hs2

theorem foldl_joinRel_cons : ∀ (rest : List String) (s b : String), b ≠ "" →
    List.foldl joinRel b (s :: rest) = b ++ "/" ++ joinSegs (s :: rest)
  | [], s, b, hb => by simp [List.foldl, joinRel, hb, joinSegs]
  | t :: rest, s, b, hb => by
    have hb2 : joinRel b s ≠ "" := by
      rw [joinRel, if_neg hb]
      exact str_append_ne_left _ _ (str_append_ne_left _ _ hb)
    calc List.foldl joinRel b (s :: t :: rest)
        = List.foldl joinRel (joinRel b s) (t :: rest) := by rw [List.foldl_cons]
      _ = joinRel b s ++ "/" ++ joinSegs (t :: rest) := foldl_joinRel_cons rest t _ hb2
      _ = b ++ "/" ++ joinSegs (s :: t :: rest) := by
          rw [joinRel, if_neg hb]
          simp [joinSegs, String.append_assoc]

theorem foldl_joinRel_empty : ∀ (segs : List String), segs ≠ [] → (∀ s ∈ segs, s ≠ "") →
    List.foldl joinRel "" segs = joinSegs segs
  | [], h, _ => absurd rfl h
  | [s], _, _ => by simp [List.foldl, joinRel, joinSegs]
  | s :: t :: rest, _, hne => by
    have hs : s ≠ "" := hne s (by simp)
    calc List.foldl joinRel "" (s :: t :: rest)
        = List.foldl joinRel s (t :: rest) := by simp [List.foldl_cons, joinRel]
      _ = s ++ "/" ++ joinSegs (t :: rest) := foldl_joinRel_cons rest t s hs
      _ = joinSegs (s :: t :: rest) := by simp [joinSegs]

theorem mem_listFilesEntries : ∀ (es : FSEntries) (base p : String), wfEntries es = true →
    (p ∈ listFilesEntries es base ↔
      ∃ segs, segs ≠ [] ∧ p = List.foldl joinRel base segs ∧
        ∃ c, (FSNode.dir es).find? segs = some (FSNode.file c))
  | .nil, base, p, _ => by
    simp only [listFilesEntries, List.not_mem_nil, false_iff]
    rintro ⟨segs, hne, hp, c, hf⟩
    cases segs with
    | nil => exact hne rfl
    | cons seg rest => simp [FSNode.find?, findEntry] at hf
  | .cons nm (.file ct) rest, base, p, hwf => by
    simp only [wfEntries_cons, Bool.and_eq_true, Bool.not_eq_true',
      beq_eq_false_iff_ne] at hwf
    obtain ⟨⟨⟨hnm, hkey⟩, _⟩, hrest⟩ := hwf
    have ihrest := mem_listFilesEntries rest base p hrest
    rw [listFilesEntries]
    constructor
    · intro hmem
      rcases List.mem_cons.mp hmem with rfl | hmem2
      · refine ⟨[nm], by simp, by simp, ct, ?_⟩
        simp [FSNode.find?, findEntry]
      · obtain ⟨segs, hne, hp, c, hf⟩ := ihrest.mp hmem2
        refine ⟨segs, hne, hp, c, ?_⟩
        cases segs with
        | nil => exact absurd rfl hne
        | cons seg r =>
          have hns : ¬ nm = seg := by
            intro hh
            subst hh
            simp only [FSNode.find?, keyNotIn_findEntry rest nm hkey] at hf
            exact absurd hf (by simp)
          simp only [FSNode.find?] at hf ⊢
          rw [findEntry, if_neg hns]
          exact hf
    · rintro ⟨segs, hne, hp, c, hf⟩
      cases segs with
      | nil => exact absurd rfl hne
      | cons seg r =>
        simp only [FSNode.find?] at hf
        split at hf
        · exact absurd hf (by simp)
        · rename_i ch hfe
          rw [findEntry] at hfe
          by_cases hns : nm = seg
          · rw [if_pos hns] at hfe
            obtain rfl : FSNode.file ct = ch := Option.some.inj hfe
            cases r with
            | nil =>
              apply List.mem_cons.mpr
              left
              have : FSNode.file ct = FSNode.file c := Option.some.inj hf
              rw [hp, ← hns]
              simp [List.foldl]
            | cons x xs => simp [FSNode.find?] at hf
          · rw [if_neg hns] at hfe
            apply List.mem_cons.mpr
            right
            apply ihrest.mpr
            refine ⟨seg :: r, by simp, hp, c, ?_⟩
            simp only [FSNode.find?]
            rw [hfe]
            exact hf
  | .cons nm (.dir es2) rest, base, p, hwf => by
    simp only [wfEntries_cons, Bool.and_eq_true, Bool.not_eq_true',
      beq_eq_false_iff_ne, wfNode] at hwf
    obtain ⟨⟨⟨hnm, hkey⟩, h2⟩, hrest⟩ := hwf
    have ih2 := fun p2 => mem_listFilesEntries es2 (joinRel base nm) p2 h2
    have ihrest := mem_listFilesEntries rest base p hrest
    rw [listFilesEntries]
    constructor
    · intro hmem
      rcases List.mem_append.mp hmem with hmem2 | hmem2
      · obtain ⟨segs2, hne2, hp2, c, hf2⟩ := (ih2 p).mp hmem2
        refine ⟨nm :: segs2, by simp, ?_, c, ?_⟩
        · rw [List.foldl_cons]; exact hp2
        · simp only [FSNode.find?]
          rw [findEntry, if_pos rfl]
          exact hf2
      · obtain ⟨segs, hne, hp, c, hf⟩ := ihrest.mp hmem2
        refine ⟨segs, hne, hp, c, ?_⟩
        cases segs with
        | nil => exact absurd rfl hne
        | cons seg r =>
          have hns : ¬ nm = seg := by
            intro hh
            subst hh
            simp only [FSNode.find?, keyNotIn_findEntry rest nm hkey] at hf
            exact absurd hf (by simp)
          simp only [FSNode.find?] at hf ⊢
          rw [findEntry, if_neg hns]
          exact hf
    · rintro ⟨segs, hne, hp, c, hf⟩
      cases segs with
      | nil => exact absurd rfl hne
      | cons seg r =>
        simp only [FSNode.find?] at hf
        split at hf
        · exact absurd hf (by simp)
        · rename_i ch hfe
          rw [findEntry] at hfe
          by_cases hns : nm = seg
          · rw [if_pos hns] at hfe
            obtain rfl : FSNode.dir es2 = ch := Option.some.inj hfe
            cases r with
            | nil => simp [FSNode.find?] at hf
            | cons x xs =>
              apply List.mem_append.mpr
              left
              apply (ih2 p).mpr
              refine ⟨x :: xs, by simp, ?_, c, hf⟩
              rw [hp, List.foldl_cons, ← hns]
          · rw [if_neg hns] at hfe
            apply List.mem_append.mpr
            right
            apply ihrest.mpr
            refine ⟨seg :: r, by simp, hp, c, ?_⟩
            simp only [FSNode.find?]
            rw [hfe]
            exact hf

/-!
Facts about the report builder, the writer and the extraction phase.
-/

theorem writerStep_content (prev c : String) : (writerStep prev c).content = c := by
  rw [writerStep]; split <;> rfl

theorem writerStep_exitCode (prev c : String) : (writerStep prev c).exitCode = 0 := by
  rw [writerStep]; split <;> rfl

theorem writerStep_wrote (prev c : String) : (writerStep prev c).wrote = true ↔ prev ≠ c := by
  rw [writerStep]; split_ifs with h <;> simp [h]

theorem writerStep_message_updated (prev c : String) :
    (writerStep prev c).message = "✅ README.md updated" ↔ prev ≠ c := by
  rw [writerStep]
  split_ifs with h
  · simp [h]
  · constructor
    · intro he
      have h2 : ("ℹ️  README.md unchanged" : String) = "✅ README.md updated" := he
      exact absurd h2 (by decide)
    · intro hne
      exact absurd hne h

theorem writerStep_message_unchanged (prev c : String) :
    (writerStep prev c).message = "ℹ️  README.md unchanged" ↔ prev = c := by
  rw [writerStep]
  split_ifs with h
  · constructor
    · intro he
      have h2 : ("✅ README.md updated" : String) = "ℹ️  README.md unchanged" := he
      exact absurd h2 (by decide)
    · intro heq
      exact absurd heq h
  · simp [not_not.mp h]

theorem buildContent_shape (e : Extracted) (now : String) :
    buildContent e now
      = ("# " ++ e.title ++ "\n\n" ++ (if e.desc = "" then "" else e.desc ++ "\n\n")
          ++ "Generated: ") ++ now ++ ("\n\n" ++ afterTsPart e) := by
  simp [buildContent, headerPart, tsLine, String.append_assoc]

theorem buildContent_ne_empty (e : Extracted) (now : String) : buildContent e now ≠ "" := by
  rw [buildContent_shape]
  have h1 : ("# " : String) ≠ "" := by decide
  have h2 := str_append_ne_left "# " e.title h1
  have h3 := str_append_ne_left _ "\n\n" h2
  have h4 := str_append_ne_left _ (if e.desc = "" then "" else e.desc ++ "\n\n") h3
  have h5 := str_append_ne_left _ "Generated: " h4
  have h6 := str_append_ne_left _ now h5
  exact str_append_ne_left _ _ h6

theorem extract_eq (fs : FSNode) (pkgOut : Option Pkg) (cwdBase : String) (e : Extracted)
    (h : extract fs pkgOut cwdBase = some e) :
    e.title = titleOf pkgOut cwdBase
    ∧ e.desc = descOf pkgOut
    ∧ e.nodeVer = nodeVerOf pkgOut
    ∧ e.scripts = sortBy entryLe ((pkgOut.getD {}).scripts.getD [])
    ∧ e.deps = sortBy entryLe ((pkgOut.getD {}).dependencies.getD [])
    ∧ e.devDeps = sortBy entryLe ((pkgOut.getD {}).devDependencies.getD [])
    ∧ e.isAngular = isAngularOf fs e.deps e.devDeps
    ∧ (∃ fl, listFilesOpt fs "src" = some fl ∧ e.files = sortBy strLe fl)
    ∧ (∃ comps, findComponentsOpt fs = some comps ∧ e.components = comps)
    ∧ e.topFolders = listTopLevelFolders fs := by
  simp only [extract] at h
  split at h
  · exact absurd h (by simp)
  · rename_i fl hfl
    split at h
    · exact absurd h (by simp)
    · rename_i comps hcomps
      obtain rfl := (Option.some.inj h).symm
      exact ⟨rfl, rfl, rfl, rfl, rfl, rfl, rfl, ⟨fl, hfl, rfl⟩, ⟨comps, hcomps, rfl⟩, rfl⟩

theorem run_eq_writer (fs : FSNode) (pkgOut : Option Pkg) (cwd now : String)
    (e : Extracted) (prev : String)
    (he : extract fs pkgOut cwd = some e) (hp : readPrev fs = some prev) :
    run fs pkgOut cwd now = some (writerStep prev (buildContent e now)) := by
  simp [run, he, hp]

theorem extract_isSome_manifest (fs : FSNode) (cwd : String) (p1 p2 : Option Pkg) :
    (extract fs p1 cwd).isSome = (extract fs p2 cwd).isSome := by
  simp only [extract]
  cases hl : listFilesOpt fs "src" <;> cases hc : findComponentsOpt fs <;> simp

theorem run_isSome_manifest (fs : FSNode) (cwd now : String) (p1 p2 : Option Pkg) :
    (run fs p1 cwd now).isSome = (run fs p2 cwd now).isSome := by
  have h := extract_isSome_manifest fs cwd p1 p2
  simp only [run]
  cases h1 : extract fs p1 cwd with
  | none =>
    cases h2 : extract fs p2 cwd with
    | none => simp
    | some e2 => rw [h1, h2] at h; simp at h
  | some e1 =>
    cases h2 : extract fs p2 cwd with
    | none => rw [h1, h2] at h; simp at h
    | some e2 => cases hp : readPrev fs <;> simp

/-!
The claims.
-/

/-- C1: the claim fails on the code. For a file `src/app.component.ts` whose
text contains `selector: 'app-foo'` and `export class FooComponent`, both
regexes do match the text (first two conjuncts), yet the extractor emits no
record at all (third conjunct): `findComponents` passes the `src`-relative
name `f` straight to `fs.readFileSync(f)` (line 85), which resolves it against
the working directory, not against `src/`; the read throws and the per-file
`catch` silently omits the file. The last two conjuncts exhibit the path
confusion: the content lives at `src/app.component.ts`, not at
`app.component.ts`. -/
theorem c1_extractor_omits_component :
    matchSelector compText = some "app-foo"
    ∧ matchExportClass compText = some "FooComponent"
    ∧ findComponentsOpt bugFS = some []
    ∧ readFileAt bugFS "app.component.ts" = none
    ∧ readFileAt bugFS "src/app.component.ts" = some compText :=
  ⟨by decide, by decide, rfl, rfl, rfl⟩

/-- C2: the writer compares the newly built report byte for byte against the
prior output content, a missing output file acting as empty prior content
(`prevFile.getD ""` is line 243); it writes and reports "updated" exactly when
the two differ, otherwise writes nothing and reports "unchanged"; and a run
over a tree with no `README.md` always writes, because the generated content
is never empty. -/
theorem c2_writer_change_detection (prevFile : Option String) (content : String)
    (fs : FSNode) (pkgOut : Option Pkg) (cwd now : String) :
    ((writerStep (prevFile.getD "") content).wrote = true ↔ prevFile.getD "" ≠ content)
    ∧ ((writerStep (prevFile.getD "") content).message = "✅ README.md updated"
        ↔ prevFile.getD "" ≠ content)
    ∧ ((writerStep (prevFile.getD "") content).message = "ℹ️  README.md unchanged"
        ↔ prevFile.getD "" = content)
    ∧ (fs.find? ["README.md"] = none →
        ∀ r, run fs pkgOut cwd now = some r → r.wrote = true) := by
  refine ⟨writerStep_wrote _ _, writerStep_message_updated _ _,
    writerStep_message_unchanged _ _, ?_⟩
  intro hmd r hr
  cases he : extract fs pkgOut cwd with
  | none => rw [run, he] at hr; exact absurd hr (by simp)
  | some e =>
    have hp : readPrev fs = some "" := by simp [readPrev, hmd]
    rw [run_eq_writer fs pkgOut cwd now e "" he hp] at hr
    obtain rfl : writerStep "" (buildContent e now) = r := Option.some.inj hr
    exact (writerStep_wrote _ _).mpr (Ne.symm (buildContent_ne_empty e now))

/-- C2 witness: a concrete run over a tree without `README.md` writes. -/
theorem c2_writer_change_detection_witness :
    ∃ r, run (dirOf []) none "proj" "T" = some r ∧ r.wrote = true := by
  refine ⟨_, rfl, ?_⟩
  exact (c2_writer_change_detection none "" (dirOf []) none "proj" "T").2.2.2 rfl _ rfl

/-- C3: over a fixed filesystem, manifest outcome and working-directory name,
the generated report is a fixed prefix, the timestamp, and a fixed suffix: two
runs at different wall-clock times differ only in the timestamp text, and with
the timestamp normalized the output is a deterministic function of those
inputs; the only other possibility is a run that dies, and whether it dies
does not depend on the clock either. -/
theorem c3_output_varies_only_in_timestamp (fs : FSNode) (pkgOut : Option Pkg) (cwd : String) :
    (∃ pre post, ∀ now,
        (run fs pkgOut cwd now).map RunResult.content = some (pre ++ now ++ post))
    ∨ (∀ now, run fs pkgOut cwd now = none) := by
  cases he : extract fs pkgOut cwd with
  | none => right; intro now; simp [run, he]
  | some e =>
    cases hp : readPrev fs with
    | none => right; intro now; simp [run, he, hp]
    | some prev =>
      left
      refine ⟨"# " ++ e.title ++ "\n\n" ++ (if e.desc = "" then "" else e.desc ++ "\n\n")
        ++ "Generated: ", "\n\n" ++ afterTsPart e, ?_⟩
      intro now
      rw [run_eq_writer fs pkgOut cwd now e prev he hp]
      show some (writerStep prev (buildContent e now)).content = _
      rw [writerStep_content, buildContent_shape]

/-- C4: production-build snippet selection over any scripts map: if some
script is named exactly build, prod or prepare, the snippet is `npm run` of
the alphabetically smallest such name present (because the source takes the
first regex match of the alphabetically sorted script list); otherwise the
Angular detector selects the fixed `npx ng build --prod` invocation, with the
generic `npm run build` as final fallback. -/
theorem c4_build_snippet_choice (m : List (String × String)) (ang : Bool) :
    ((∃ e, e ∈ m ∧ isBuildName e.1 = true) →
      ∃ nm, buildCmd (sortBy entryLe m) ang = "npm run " ++ nm ++ "\n"
        ∧ (∃ e, e ∈ m ∧ e.1 = nm ∧ isBuildName nm = true)
        ∧ (∀ e, e ∈ m → isBuildName e.1 = true → strLe nm e.1 = true))
    ∧ ((∀ e, e ∈ m → isBuildName e.1 = false) →
      buildCmd (sortBy entryLe m) ang
        = if ang then "npx ng build --prod\n" else "npm run build\n") := by
  have htrans : ∀ a b c : String × String,
      entryLe a b = true → entryLe b c = true → entryLe a c = true :=
    fun a b c h1 h2 => strLe_trans _ _ _ h1 h2
  have htotal : ∀ a b : String × String, entryLe a b = true ∨ entryLe b a = true :=
    fun a b => strLe_total _ _
  have hpair := pairwise_sortBy entryLe htrans htotal m
  constructor
  · rintro ⟨e0, he0, hb0⟩
    have hmem : e0 ∈ sortBy entryLe m := (mem_sortBy _ _ _).mpr he0
    obtain ⟨x, hx⟩ := find?_isSome_of_mem (fun e => isBuildName e.1) _ e0 hmem hb0
    refine ⟨x.1, by simp [buildCmd, hx], ?_, ?_⟩
    · have hxmem := (mem_sortBy entryLe m x).mp (List.mem_of_find?_eq_some hx)
      have hpx : isBuildName x.1 = true := by simpa using List.find?_some hx
      exact ⟨x, hxmem, rfl, hpx⟩
    · intro e hem hbe
      have hes : e ∈ sortBy entryLe m := (mem_sortBy _ _ _).mpr hem
      rcases find?_min_of_pairwise entryLe _ _ hpair x hx e hes hbe with h | h
      · exact h
      · rw [h]
        exact strLe_refl _
  · intro hnone
    have hfn : List.find? (fun e => isBuildName e.1) (sortBy entryLe m) = none := by
      apply List.find?_eq_none.mpr
      intro x hx
      simp [hnone x ((mem_sortBy _ _ _).mp hx)]
    simp [buildCmd, hfn]

/-- C4 witness: with scripts prod and prepare present (and no build), the
snippet runs prepare, the alphabetically first of the two. -/
theorem c4_build_snippet_choice_witness :
    ∃ nm, buildCmd (sortBy entryLe [("prod", "a"), ("prepare", "b")]) false
        = "npm run " ++ nm ++ "\n"
      ∧ (∃ e, e ∈ [("prod", "a"), ("prepare", "b")] ∧ e.1 = nm ∧ isBuildName nm = true)
      ∧ (∀ e, e ∈ [("prod", "a"), ("prepare", "b")] →
          isBuildName e.1 = true → strLe nm e.1 = true) :=
  (c4_build_snippet_choice [("prod", "a"), ("prepare", "b")] false).1
    ⟨("prod", "a"), by simp, by decide⟩

/-- C5: the "Run tests" snippet is the direct `npm test` invocation exactly
when a script named exactly "test" exists, and the generic `npm run test`
invocation otherwise. -/
theorem c5_test_snippet_choice (m : List (String × String)) :
    (testCmd (sortBy entryLe m) = "npm test\n" ↔ ∃ e, e ∈ m ∧ e.1 = "test")
    ∧ ((¬ ∃ e, e ∈ m ∧ e.1 = "test") → testCmd (sortBy entryLe m) = "npm run test\n") := by
  have hany : (sortBy entryLe m).any (fun e => e.1 == "test") = true
      ↔ ∃ e, e ∈ m ∧ e.1 = "test" := by
    rw [List.any_eq_true]
    constructor
    · rintro ⟨e, he, hb⟩
      exact ⟨e, (mem_sortBy _ _ _).mp he, by simpa using hb⟩
    · rintro ⟨e, he, hb⟩
      exact ⟨e, (mem_sortBy _ _ _).mpr he, by simpa using hb⟩
  cases hb : (sortBy entryLe m).any (fun e => e.1 == "test") with
  | true =>
    have hex := hany.mp hb
    refine ⟨⟨fun _ => hex, fun _ => by simp [testCmd, hb]⟩, fun hno => absurd hex hno⟩
  | false =>
    have hnex : ¬ ∃ e, e ∈ m ∧ e.1 = "test" := by
      intro hex
      rw [hany.mpr hex] at hb
      exact absurd hb (by decide)
    refine ⟨⟨fun ht => ?_, fun hex => absurd hex hnex⟩, fun _ => by simp [testCmd, hb]⟩
    rw [testCmd, hb] at ht
    exact absurd ht (by decide)

/-- C5 witness: a scripts map with a "test" script gets `npm test`, one
without gets `npm run test`. -/
theorem c5_test_snippet_choice_witness :
    testCmd (sortBy entryLe [("test", "jest")]) = "npm test\n"
    ∧ testCmd (sortBy entryLe [("lint", "x")]) = "npm run test\n" := by
  constructor
  · exact (c5_test_snippet_choice [("test", "jest")]).1.mpr ⟨("test", "jest"), by simp, rfl⟩
  · refine (c5_test_snippet_choice [("lint", "x")]).2 ?_
    rintro ⟨e, he, hname⟩
    simp only [List.mem_singleton] at he
    subst he
    exact absurd hname (by decide)

/-- C6: the framework detector returns true exactly when the marker file
`angular.json` resolves at the project root or some name among the dependency
or dev-dependency entries starts with the fixed scope prefix `@angular/`; in
the embedding it is a plain function of its inputs, so it has no side
effects. -/
theorem c6_angular_detector_iff (fs : FSNode) (deps devDeps : List (String × String)) :
    isAngularOf fs deps devDeps = true ↔
      ((fs.find? ["angular.json"]).isSome = true
        ∨ (∃ e, e ∈ deps ∧ strBeginsWith e.1 "@angular/" = true)
        ∨ (∃ e, e ∈ devDeps ∧ strBeginsWith e.1 "@angular/" = true)) := by
  have hsp : splitPath "angular.json" = ["angular.json"] := rfl
  simp [isAngularOf, existsAt, hsp, List.any_eq_true]
  exact or_assoc

/-- C7: a missing or unparseable manifest (`readJSON` outcome null) yields
the empty record, so the title falls back to the directory basename and the
description, node requirement, scripts, dependencies and devDependencies all
default to empty/blank; moreover whether a run survives does not depend on
the manifest outcome at all, so the failure never kills the process. -/
theorem c7_manifest_defaults (fs : FSNode) (cwd now : String) :
    (∀ e, extract fs none cwd = some e →
      e.title = cwd ∧ e.desc = "" ∧ e.nodeVer = "" ∧ e.scripts = []
        ∧ e.deps = [] ∧ e.devDeps = [])
    ∧ (∀ pkgOut : Option Pkg, (run fs pkgOut cwd now).isSome = (run fs none cwd now).isSome) := by
  constructor
  · intro e he
    obtain ⟨h1, h2, h3, h4, h5, h6, _⟩ := extract_eq fs none cwd e he
    exact ⟨by rw [h1]; rfl, by rw [h2]; rfl, by rw [h3]; rfl,
      by rw [h4]; rfl, by rw [h5]; rfl, by rw [h6]; rfl⟩
  · intro pkgOut
    exact run_isSome_manifest fs cwd now pkgOut none

/-- C7 witness: over an empty working directory and missing manifest, the
extracted record has basename title and all-blank fields. -/
theorem c7_manifest_defaults_witness :
    ∃ e, extract (dirOf []) none "proj" = some e
      ∧ e.title = "proj" ∧ e.desc = "" ∧ e.nodeVer = "" ∧ e.scripts = []
      ∧ e.deps = [] ∧ e.devDeps = [] := by
  refine ⟨_, rfl, ?_⟩
  exact (c7_manifest_defaults (dirOf []) "proj" "T").1 _ rfl

/-- C8 counterexample: a run over a working directory holding a regular file
named `src` dies instead of exiting 0. Line 110's `listFiles("src")` passes
the `fs.existsSync` guard and calls `fs.readdirSync` on a non-directory,
which throws `ENOTDIR`; nothing catches it, so the process exits nonzero —
refuting "every run of the generator terminates with exit code 0". -/
theorem c8_src_file_run_dies :
    run (dirOf [("src", FSNode.file "not a directory")]) none "proj" "T" = none := rfl

/-- C8 (amended): every run in which `src`, when present, is a directory and
`README.md`, when present, is not a directory reaches the writer and exits 0,
in both the updated and the unchanged outcome; this covers in particular the
conditions the claim enumerates (missing manifest, missing source directory,
unreadable component file). -/
theorem c8_exit_zero_amended (fs : FSNode) (pkgOut : Option Pkg) (cwd now : String)
    (hsrc : ∀ c, fs.find? ["src"] ≠ some (FSNode.file c))
    (hmd : ∀ es, fs.find? ["README.md"] ≠ some (FSNode.dir es)) :
    ∃ r, run fs pkgOut cwd now = some r ∧ r.exitCode = 0 := by
  have hsp : splitPath "src" = ["src"] := rfl
  have h1 : (listFilesOpt fs "src").isSome = true := by
    cases hh : fs.find? ["src"] with
    | none => simp [listFilesOpt, hsp, hh]
    | some n =>
      cases n with
      | file c => exact absurd hh (hsrc c)
      | dir es => simp [listFilesOpt, hsp, hh]
  have h2 : (findComponentsOpt fs).isSome = true := by
    cases hh : fs.find? ["src"] with
    | none => simp [findComponentsOpt, hh]
    | some n =>
      cases n with
      | file c => exact absurd hh (hsrc c)
      | dir es => simp [findComponentsOpt, hh]
  have h3 : (readPrev fs).isSome = true := by
    cases hh : fs.find? ["README.md"] with
    | none => simp [readPrev, hh]
    | some n =>
      cases n with
      | file c => simp [readPrev, hh]
      | dir es => exact absurd hh (hmd es)
  obtain ⟨fl, hfl⟩ := Option.isSome_iff_exists.mp h1
  obtain ⟨comps, hcomps⟩ := Option.isSome_iff_exists.mp h2
  obtain ⟨prev, hprev⟩ := Option.isSome_iff_exists.mp h3
  have he : (extract fs pkgOut cwd).isSome = true := by
    simp [extract, hfl, hcomps]
  obtain ⟨e, hee⟩ := Option.isSome_iff_exists.mp he
  exact ⟨writerStep prev (buildContent e now),
    run_eq_writer fs pkgOut cwd now e prev hee hprev, writerStep_exitCode _ _⟩

/-- C8 witness: over an empty working directory (no manifest, no src, no
README) the run exits 0. -/
theorem c8_exit_zero_amended_witness :
    ∃ r, run (dirOf []) none "wd" "T2" = some r ∧ r.exitCode = 0 :=
  c8_exit_zero_amended (dirOf []) none "wd" "T2"
    (fun _ h => Option.noConfusion h) (fun _ h => Option.noConfusion h)

/-- C9: `listFiles(dir)` behaviour: a nonexistent root yields the empty list
rather than an error; when the root resolves to a well-formed directory, the
returned entries are exactly the slash-joined segment paths that resolve to
regular files (not directories) under that root, relative to it; and the
caller of line 110 sorts the final list lexicographically while preserving
exactly its members. -/
theorem c9_listFiles_spec (fs : FSNode) (dirPath : String) :
    (fs.find? (splitPath dirPath) = none → listFilesOpt fs dirPath = some [])
    ∧ (∀ es out, fs.find? (splitPath dirPath) = some (FSNode.dir es) →
        listFilesOpt fs dirPath = some out → wfEntries es = true →
        ∀ p, (p ∈ out ↔
          ∃ segs, segs ≠ [] ∧ p = joinSegs segs ∧
            ∃ c, (FSNode.dir es).find? segs = some (FSNode.file c)))
    ∧ (∀ pkgOut cwd e, extract fs pkgOut cwd = some e →
        e.files.Pairwise (fun a b => strLe a b = true)
        ∧ ∀ p, (p ∈ e.files ↔ ∃ l, listFilesOpt fs "src" = some l ∧ p ∈ l)) := by
  refine ⟨?_, ?_, ?_⟩
  · intro h
    simp [listFilesOpt, h]
  · intro es out hfind hout hwf p
    have hlo : listFilesOpt fs dirPath = some (listFilesEntries es "") := by
      simp [listFilesOpt, hfind]
    rw [hlo] at hout
    obtain rfl : listFilesEntries es "" = out := Option.some.inj hout
    rw [mem_listFilesEntries es "" p hwf]
    have hwfn : wfNode (FSNode.dir es) = true := by simpa [wfNode] using hwf
    constructor
    · rintro ⟨segs, hne, hp, c, hf⟩
      exact ⟨segs, hne,
        by rw [hp]; exact foldl_joinRel_empty segs hne (find?_wf_names segs _ c hwfn hf),
        c, hf⟩
    · rintro ⟨segs, hne, hp, c, hf⟩
      exact ⟨segs, hne,
        by rw [hp]; exact (foldl_joinRel_empty segs hne (find?_wf_names segs _ c hwfn hf)).symm,
        c, hf⟩
  · intro pkgOut cwd e he
    obtain ⟨_, _, _, _, _, _, _, ⟨fl, hfl, hfiles⟩, _⟩ := extract_eq fs pkgOut cwd e he
    constructor
    · rw [hfiles]
      exact pairwise_sortBy strLe (fun a b c => strLe_trans a b c) (fun a b => strLe_total a b) fl
    · intro p
      rw [hfiles, mem_sortBy]
      constructor
      · intro hp
        exact ⟨fl, hfl, hp⟩
      · rintro ⟨l, hl, hp⟩
        rw [hfl] at hl
        obtain rfl : fl = l := Option.some.inj hl
        exact hp

/-- C9 witness: a two-level src tree; its file list is exactly the two file
paths, with `sub/b.txt` slash-joined. -/
theorem c9_listFiles_spec_witness :
    ∀ p, (p ∈ ["a.txt", "sub/b.txt"] ↔
      ∃ segs, segs ≠ [] ∧ p = joinSegs segs ∧
        ∃ c, (FSNode.dir (FSEntries.ofList
          [("a.txt", FSNode.file "x"),
           ("sub", dirOf [("b.txt", FSNode.file "y")])])).find? segs
            = some (FSNode.file c)) :=
  (c9_listFiles_spec
      (dirOf [("src", dirOf [("a.txt", FSNode.file "x"),
        ("sub", dirOf [("b.txt", FSNode.file "y")])])]) "src").2.1
    (FSEntries.ofList [("a.txt", FSNode.file "x"),
      ("sub", dirOf [("b.txt", FSNode.file "y")])])
    ["a.txt", "sub/b.txt"] rfl rfl rfl

/-- C10: the report title is the manifest name exactly when that name is
present and nonempty, and the working-directory basename otherwise — in
particular whenever the manifest is missing or unparseable or has no name
field; and the report text opens with exactly that title line. -/
theorem c10_title_line (pkgOut : Option Pkg) (cwd : String) :
    ((pkgOut = none ∨ ∃ pk, pkgOut = some pk ∧ pk.name = none) → titleOf pkgOut cwd = cwd)
    ∧ (∀ pk s, pkgOut = some pk → pk.name = some s → s ≠ "" → titleOf pkgOut cwd = s)
    ∧ (∀ fs e now, extract fs pkgOut cwd = some e →
        ∃ tail, buildContent e now = "# " ++ titleOf pkgOut cwd ++ ("\n\n" ++ tail)) := by
  refine ⟨?_, ?_, ?_⟩
  · rintro (rfl | ⟨pk, rfl, hname⟩)
    · rfl
    · simp [titleOf, jsOrStr, hname]
  · intro pk s hpk hname hs
    subst hpk
    simp [titleOf, jsOrStr, hname, hs]
  · intro fs e now he
    obtain ⟨h1, _⟩ := extract_eq fs pkgOut cwd e he
    refine ⟨(if e.desc = "" then "" else e.desc ++ "\n\n") ++ "Generated: " ++ now
      ++ "\n\n" ++ afterTsPart e, ?_⟩
    rw [buildContent_shape, h1]
    simp [String.append_assoc]

/-- C10 witness: nonempty manifest name wins; missing manifest falls back to
the basename. -/
theorem c10_title_line_witness :
    titleOf (some { name := some "myapp" }) "wd" = "myapp"
    ∧ titleOf none "wd2" = "wd2" :=
  ⟨(c10_title_line (some { name := some "myapp" }) "wd").2.1 _ "myapp" rfl rfl (by decide),
   (c10_title_line none "wd2").1 (Or.inl rfl)⟩
